import Mathlib

/-
Verification of the storage/sync engine of the scblockerdashboard repository
(src/src/utils/storageService.ts) against its natural-language specification.

The development shallowly embeds the engine's data model and operations:

* JavaScript `Date` objects are represented by their epoch-millisecond value
  (`Int`); ISO-8601 serialization (`Date.prototype.toISOString`) and parsing
  (`new Date(isoString).getTime()`) are implemented for real over the
  proleptic Gregorian calendar.
* A runtime value that is either a string or a `Date` is represented by
  `JsVal`, so that the wire-format reviver's behaviour (which fields it
  converts back to `Date`s) is observable in the model.
* The in-memory `Block.lastModified` field is an ISO string in the source;
  the merge algorithm only ever consumes it through
  `new Date(s).getTime()`, so the model carries the parsed
  epoch-millisecond value (`Option Int`, `none` when the field is absent).
  The model assumes these strings parse to finite times, which holds for
  every string the program itself writes (`new Date().toISOString()`).
* The JavaScript `Map` used by the merge functions is embedded as an
  association list with `Map.get`/`Map.set` insertion-order semantics.
-/

set_option autoImplicit false

namespace SCBlocker

/-- Runtime value of a date-carrying field: after `JSON.parse` with the
reviver a field holds either a revived `Date` (epoch ms) or the raw
ISO string that was stored in the file. -/
inductive JsVal where
  | str : String → JsVal
  | date : Int → JsVal
deriving DecidableEq, Repr

/-- Embedding of the `Block` entity of `src/src/types/index.ts`.
`startTime`/`endTime`/`failedAt` are runtime values (`JsVal`) so that the
reviver's effect is observable; `lastModified` is the parsed
epoch-millisecond value of the ISO string held in memory. -/
structure Block where
  id : Int
  name : String
  startTime : JsVal
  endTime : JsVal
  notes : Option String := none
  status : Option String := none
  failedAt : Option JsVal := none
  failureReason : Option String := none
  lastModified : Option Int := none
deriving DecidableEq, Repr

/-- Embedding of the `StandardBlock` entity of `src/src/types/index.ts`. -/
structure StandardBlock where
  id : Int
  name : String
  required : Option Bool := none
deriving DecidableEq, Repr

/-- Embedding of the `StorageData` document (`src/src/types/index.ts`):
the whole unit of persistence. The top-level `lastModified` is a string
in the source and is never revived, so it stays a string here. -/
structure StorageData where
  version : String
  lastModified : String
  blocks : List Block
  standardBlocks : List StandardBlock
deriving DecidableEq, Repr

/-! ### JavaScript `Map` as an association list

`mergeBlocks` and `mergeStandardBlocks` build a `Map<number, T>`.
`Map.set` replaces the value of an existing key in place and appends a
new key at the end; `Map.get` returns the value for a key;
`Array.from(map.values())` lists the values in insertion order. -/

/-- Association list standing for a `Map<number, α>`. -/
abbrev AList (α : Type) := List (Int × α)

/-- `Map.get`: first (and, for maps built by `mapSet`, only) entry with
the given key. -/
def mapGet {α : Type} : AList α → Int → Option α
  | [], _ => none
  | p :: t, k => if p.1 = k then some p.2 else mapGet t k

/-- `Map.set`: replace the entry with the given key in place, or append
a fresh entry at the end. -/
def mapSet {α : Type} : AList α → Int → α → AList α
  | [], k, v => [(k, v)]
  | p :: t, k, v => if p.1 = k then (k, v) :: t else p :: mapSet t k v

theorem mapGet_mapSet {α : Type} (m : AList α) (k k' : Int) (v : α) :
    mapGet (mapSet m k v) k' = if k' = k then some v else mapGet m k' := by
  induction m with
  | nil =>
    by_cases h : k' = k
    · simp [mapSet, mapGet, h]
    · simp [mapSet, mapGet, h, Ne.symm h]
  | cons p t ih =>
    by_cases hp : p.1 = k
    · by_cases h : k' = k
      · simp [mapSet, mapGet, hp, h]
      · have hk : k ≠ k' := Ne.symm h
        have hpk : p.1 ≠ k' := hp ▸ hk
        simp [mapSet, mapGet, hp, h, hk, hpk]
    · by_cases hpk : p.1 = k'
      · have h : k' ≠ k := fun hh => hp (hpk.trans hh)
        simp [mapSet, mapGet, hp, hpk, h]
      · simp [mapSet, mapGet, hp, hpk, ih]

/-- Lookup in a list of records by an integer key projection (the
`find by id` reading used to state properties of the merge results). -/
def findByKey {α : Type} (key : α → Int) (l : List α) (i : Int) : Option α :=
  l.find? (fun x => key x == i)

/-- The first loop of both merge functions:
`for (const b of l) map.set(key(b), b)`. -/
def insFold {α : Type} (key : α → Int) (l : List α) (m : AList α) : AList α :=
  l.foldl (fun m x => mapSet m (key x) x) m

/-- Millisecond time used by `mergeBlocks`:
`b.lastModified ? new Date(b.lastModified).getTime() : 0`. -/
def blockTime (b : Block) : Int := b.lastModified.getD 0

/-- Body of the second loop of `mergeBlocks`
(`src/src/utils/storageService.ts` lines 375–386): a local block simply
fills a missing id, and on a collision replaces the external block
exactly when `lTime >= eTime`. -/
def mergeStep (m : AList Block) (b : Block) : AList Block :=
  match mapGet m b.id with
  | none => mapSet m b.id b
  | some existing => if blockTime b ≥ blockTime existing then mapSet m b.id b else m

/-- Embedding of `mergeBlocks` (`src/src/utils/storageService.ts`
lines 372–388). -/
def mergeBlocks (external localBlocks : List Block) : List Block :=
  let m := insFold Block.id external []
  let m := localBlocks.foldl mergeStep m
  m.map Prod.snd

/-- Embedding of `mergeStandardBlocks` (`src/src/utils/storageService.ts`
lines 390–395): both loops are plain `map.set`, so the local side always
wins a collision. -/
def mergeStandardBlocks (external localBlocks : List StandardBlock) : List StandardBlock :=
  let m := insFold StandardBlock.id external []
  let m := insFold StandardBlock.id localBlocks m
  m.map Prod.snd

/-! ### Lookup characterizations of the merge folds -/

theorem findByKey_nil {α : Type} (key : α → Int) (i : Int) :
    findByKey key [] i = none := rfl

theorem findByKey_cons {α : Type} (key : α → Int) (x : α) (t : List α) (i : Int) :
    findByKey key (x :: t) i = if key x = i then some x else findByKey key t i := by
  by_cases h : key x = i
  · simp [findByKey, List.find?, h]
  · have hb : (key x == i) = false := by simp [h]
    simp [findByKey, List.find?, hb, h]

theorem findByKey_eq_none_of_not_mem {α : Type} (key : α → Int) (l : List α) (i : Int)
    (h : i ∉ l.map key) : findByKey key l i = none := by
  refine List.find?_eq_none.mpr fun x hx => ?_
  simp only [beq_iff_eq]
  exact fun hk => h (hk ▸ List.mem_map_of_mem key hx)

theorem mapGet_insFold {α : Type} (key : α → Int) (l : List α) (m : AList α) (i : Int)
    (hnd : (l.map key).Nodup) :
    mapGet (insFold key l m) i =
      match findByKey key l i with
      | some x => some x
      | none => mapGet m i := by
  induction l generalizing m with
  | nil => simp [insFold, findByKey]
  | cons x t ih =>
    have hpair : (∀ y ∈ t, ¬ key y = key x) ∧ (t.map key).Nodup := by simpa using hnd
    have hx : key x ∉ t.map key := by
      intro hmem
      obtain ⟨y, hy, hky⟩ := List.mem_map.mp hmem
      exact hpair.1 y hy hky
    have hstep : insFold key (x :: t) m = insFold key t (mapSet m (key x) x) := rfl
    rw [hstep, ih _ hpair.2, findByKey_cons]
    by_cases h : key x = i
    · have ht : findByKey key t i = none :=
        findByKey_eq_none_of_not_mem key t i (h ▸ hx)
      simp [ht, h, mapGet_mapSet]
    · have hne : i ≠ key x := Ne.symm h
      rw [if_neg h, mapGet_mapSet, if_neg hne]

theorem mapGet_mergeStep_ne (m : AList Block) (b : Block) (i : Int) (h : i ≠ b.id) :
    mapGet (mergeStep m b) i = mapGet m i := by
  unfold mergeStep
  split
  · rw [mapGet_mapSet, if_neg h]
  · split
    · rw [mapGet_mapSet, if_neg h]
    · rfl

theorem mapGet_mergeFold (l : List Block) (m : AList Block) (i : Int)
    (hnd : (l.map Block.id).Nodup) :
    mapGet (l.foldl mergeStep m) i =
      match findByKey Block.id l i with
      | none => mapGet m i
      | some b =>
        match mapGet m i with
        | none => some b
        | some e => some (if blockTime b ≥ blockTime e then b else e) := by
  induction l generalizing m with
  | nil => simp [findByKey]
  | cons x t ih =>
    have hpair : (∀ y ∈ t, ¬ y.id = x.id) ∧ (t.map Block.id).Nodup := by simpa using hnd
    have hx : x.id ∉ t.map Block.id := by
      intro hmem
      obtain ⟨y, hy, hky⟩ := List.mem_map.mp hmem
      exact hpair.1 y hy hky
    have hstep : (x :: t).foldl mergeStep m = t.foldl mergeStep (mergeStep m x) := rfl
    rw [hstep, ih _ hpair.2, findByKey_cons]
    by_cases h : x.id = i
    · have ht : findByKey Block.id t i = none :=
        findByKey_eq_none_of_not_mem Block.id t i (h ▸ hx)
      rw [if_pos h, ht]
      subst h
      unfold mergeStep
      rcases hm : mapGet m x.id with _ | e
      · simp [hm, mapGet_mapSet]
      · by_cases htime : blockTime x ≥ blockTime e
        · simp [hm, htime, mapGet_mapSet]
        · simp [hm, htime]
    · rw [if_neg h, mapGet_mergeStep_ne m x i (Ne.symm h)]

/-! ### From the internal map to the returned list

Every map built by the merge loops stores each block under its own id,
so looking a block up by id in `Array.from(map.values())` is the same as
`map.get`. -/

def KVMap {α : Type} (key : α → Int) (m : AList α) : Prop :=
  ∀ p ∈ m, key p.2 = p.1

theorem KVMap_nil {α : Type} (key : α → Int) : KVMap key ([] : AList α) :=
  fun p hp => absurd hp (List.not_mem_nil p)

theorem KVMap_mapSet {α : Type} (key : α → Int) (m : AList α) (k : Int) (v : α)
    (hm : KVMap key m) (hv : key v = k) : KVMap key (mapSet m k v) := by
  induction m with
  | nil =>
    intro p hp
    simp only [mapSet, List.mem_singleton] at hp
    subst hp; exact hv
  | cons q t ih =>
    intro p hp
    by_cases hq : q.1 = k
    · simp only [mapSet, if_pos hq] at hp
      rcases List.mem_cons.mp hp with h | h
      · subst h; exact hv
      · exact hm p (List.mem_cons_of_mem q h)
    · simp only [mapSet, if_neg hq] at hp
      rcases List.mem_cons.mp hp with h | h
      · exact h ▸ hm q (List.mem_cons_self q t)
      · exact ih (fun r hr => hm r (List.mem_cons_of_mem q hr)) p h

theorem KVMap_insFold {α : Type} (key : α → Int) (l : List α) (m : AList α)
    (hm : KVMap key m) : KVMap key (insFold key l m) := by
  induction l generalizing m with
  | nil => exact hm
  | cons x t ih => exact ih _ (KVMap_mapSet key m (key x) x hm rfl)

theorem KVMap_mergeFold (l : List Block) (m : AList Block)
    (hm : KVMap Block.id m) : KVMap Block.id (l.foldl mergeStep m) := by
  induction l generalizing m with
  | nil => exact hm
  | cons x t ih =>
    refine ih _ ?_
    unfold mergeStep
    split
    · exact KVMap_mapSet Block.id m x.id x hm rfl
    · split
      · exact KVMap_mapSet Block.id m x.id x hm rfl
      · exact hm

theorem findByKey_values {α : Type} (key : α → Int) (m : AList α) (i : Int)
    (hkv : KVMap key m) : findByKey key (m.map Prod.snd) i = mapGet m i := by
  induction m with
  | nil => rfl
  | cons p t ih =>
    have hp : key p.2 = p.1 := hkv p (List.mem_cons_self p t)
    have hrest : KVMap key t := fun r hr => hkv r (List.mem_cons_of_mem p hr)
    simp only [List.map_cons, findByKey_cons, mapGet, hp]
    by_cases h : p.1 = i
    · rw [if_pos h, if_pos h]
    · rw [if_neg h, if_neg h, ih hrest]

/-- Shared characterization of `mergeBlocks`: looking up any id in the
merge result returns the external block when only the external side has
the id, the local block when only the local side has it, and on a
collision the block with `lTime >= eTime` (so the local block on a tie). -/
theorem mergeBlocks_findByKey (ext loc : List Block) (i : Int)
    (hext : (ext.map Block.id).Nodup) (hloc : (loc.map Block.id).Nodup) :
    findByKey Block.id (mergeBlocks ext loc) i =
      match findByKey Block.id ext i, findByKey Block.id loc i with
      | none, none => none
      | some e, none => some e
      | none, some b => some b
      | some e, some b => some (if blockTime b ≥ blockTime e then b else e) := by
  unfold mergeBlocks
  rw [findByKey_values Block.id _ i
        (KVMap_mergeFold loc _ (KVMap_insFold Block.id ext [] (KVMap_nil Block.id))),
      mapGet_mergeFold loc _ i hloc, mapGet_insFold Block.id ext [] i hext]
  cases findByKey Block.id ext i <;> cases findByKey Block.id loc i <;> rfl

/-- Shared characterization of `mergeStandardBlocks`: union by id where
the local side unconditionally wins any collision. -/
theorem mergeStandardBlocks_findByKey (ext loc : List StandardBlock) (i : Int)
    (hext : (ext.map StandardBlock.id).Nodup) (hloc : (loc.map StandardBlock.id).Nodup) :
    findByKey StandardBlock.id (mergeStandardBlocks ext loc) i =
      match findByKey StandardBlock.id loc i with
      | some b => some b
      | none => findByKey StandardBlock.id ext i := by
  unfold mergeStandardBlocks
  rw [findByKey_values StandardBlock.id _ i
        (KVMap_insFold StandardBlock.id loc _
          (KVMap_insFold StandardBlock.id ext [] (KVMap_nil StandardBlock.id))),
      mapGet_insFold StandardBlock.id loc _ i hloc,
      mapGet_insFold StandardBlock.id ext [] i hext]
  cases findByKey StandardBlock.id loc i <;> cases findByKey StandardBlock.id ext i <;> rfl

/-! ### Claim C1: block merge is a union by id -/

/-- C1: `mergeBlocks` is a union by id. For ids present on only one side
the unique block of that side is kept unchanged (no deletions propagate);
for ids present on both sides the block with the greater `lastModified`
is kept, the local block winning ties (`lTime >= eTime` keeps local). -/
theorem mergeBlocks_union_by_id (ext loc : List Block) (i : Int)
    (hext : (ext.map Block.id).Nodup) (hloc : (loc.map Block.id).Nodup) :
    (findByKey Block.id loc i = none →
      findByKey Block.id (mergeBlocks ext loc) i = findByKey Block.id ext i) ∧
    (findByKey Block.id ext i = none →
      findByKey Block.id (mergeBlocks ext loc) i = findByKey Block.id loc i) ∧
    (∀ e b, findByKey Block.id ext i = some e → findByKey Block.id loc i = some b →
      findByKey Block.id (mergeBlocks ext loc) i =
        some (if blockTime b ≥ blockTime e then b else e)) := by
  have hc := mergeBlocks_findByKey ext loc i hext hloc
  refine ⟨?_, ?_, ?_⟩
  · intro h; rw [hc, h]; cases findByKey Block.id ext i <;> rfl
  · intro h; rw [hc, h]; cases findByKey Block.id loc i <;> rfl
  · intro e b he hb; rw [hc, he, hb]

def c1Ext : Block :=
  { id := 1, name := "external", startTime := .date 0, endTime := .date 60000,
    lastModified := some 100 }

def c1Loc : Block :=
  { id := 1, name := "localcopy", startTime := .date 0, endTime := .date 60000,
    lastModified := some 200 }

def c1OnlyLoc : Block :=
  { id := 2, name := "fresh", startTime := .date 0, endTime := .date 60000 }

/-- Witness for C1 at a concrete collision: the newer local block wins,
and the id present only locally is kept. -/
theorem mergeBlocks_union_by_id_witness :
    ([c1Ext].map Block.id).Nodup ∧ ([c1Loc, c1OnlyLoc].map Block.id).Nodup ∧
    findByKey Block.id (mergeBlocks [c1Ext] [c1Loc, c1OnlyLoc]) 1 = some c1Loc ∧
    findByKey Block.id (mergeBlocks [c1Ext] [c1Loc, c1OnlyLoc]) 2 = some c1OnlyLoc := by
  refine ⟨by decide, by decide, ?_, ?_⟩
  · have h := (mergeBlocks_union_by_id [c1Ext] [c1Loc, c1OnlyLoc] 1
      (by decide) (by decide)).2.2 c1Ext c1Loc (by decide) (by decide)
    rwa [if_pos (show blockTime c1Loc ≥ blockTime c1Ext by decide)] at h
  · have h := (mergeBlocks_union_by_id [c1Ext] [c1Loc, c1OnlyLoc] 2
      (by decide) (by decide)).2.1 (by decide)
    rw [h]; decide

/-! ### Claim C9: standard-block merge is a union by id, local wins -/

/-- C9: `mergeStandardBlocks` is a union by id. Ids present on only one
side are kept, and on a collision the local record unconditionally wins. -/
theorem mergeStandardBlocks_union_by_id (ext loc : List StandardBlock) (i : Int)
    (hext : (ext.map StandardBlock.id).Nodup) (hloc : (loc.map StandardBlock.id).Nodup) :
    (findByKey StandardBlock.id loc i = none →
      findByKey StandardBlock.id (mergeStandardBlocks ext loc) i =
        findByKey StandardBlock.id ext i) ∧
    (∀ b, findByKey StandardBlock.id loc i = some b →
      findByKey StandardBlock.id (mergeStandardBlocks ext loc) i = some b) := by
  have hc := mergeStandardBlocks_findByKey ext loc i hext hloc
  refine ⟨?_, ?_⟩
  · intro h; rw [hc, h]
  · intro b hb; rw [hc, hb]

/-- Witness for C9 at a concrete collision: the local record wins even
though nothing arbitrates recency, and external-only ids survive. -/
theorem mergeStandardBlocks_union_by_id_witness :
    (([⟨1, "ext", none⟩, ⟨2, "keep", some true⟩] : List StandardBlock).map
        StandardBlock.id).Nodup ∧
    (([⟨1, "loc", some false⟩] : List StandardBlock).map StandardBlock.id).Nodup ∧
    findByKey StandardBlock.id
      (mergeStandardBlocks [⟨1, "ext", none⟩, ⟨2, "keep", some true⟩]
        [⟨1, "loc", some false⟩]) 1 = some ⟨1, "loc", some false⟩ ∧
    findByKey StandardBlock.id
      (mergeStandardBlocks [⟨1, "ext", none⟩, ⟨2, "keep", some true⟩]
        [⟨1, "loc", some false⟩]) 2 = some ⟨2, "keep", some true⟩ := by
  refine ⟨by decide, by decide, ?_, ?_⟩
  · exact (mergeStandardBlocks_union_by_id
      [⟨1, "ext", none⟩, ⟨2, "keep", some true⟩] [⟨1, "loc", some false⟩] 1
      (by decide) (by decide)).2 ⟨1, "loc", some false⟩ (by decide)
  · have h := (mergeStandardBlocks_union_by_id
      [⟨1, "ext", none⟩, ⟨2, "keep", some true⟩] [⟨1, "loc", some false⟩] 2
      (by decide) (by decide)).1 (by decide)
    rw [h]; decide

/-! ### Claim C10: a missing `lastModified` is treated as time 0 -/

/-- C10: in `mergeBlocks`, a block without `lastModified` gets merge time
`0`: on an id collision a local block lacking the field loses to an
external block whose `lastModified` parses to a positive time, and wins
when both sides lack the field. -/
theorem mergeBlocks_missing_lastModified (ext loc : List Block) (i : Int) (e b : Block)
    (hext : (ext.map Block.id).Nodup) (hloc : (loc.map Block.id).Nodup)
    (he : findByKey Block.id ext i = some e) (hb : findByKey Block.id loc i = some b)
    (hbl : b.lastModified = none) :
    (∀ t : Int, e.lastModified = some t → 0 < t →
      findByKey Block.id (mergeBlocks ext loc) i = some e) ∧
    (e.lastModified = none → findByKey Block.id (mergeBlocks ext loc) i = some b) := by
  have hc : findByKey Block.id (mergeBlocks ext loc) i =
      some (if blockTime b ≥ blockTime e then b else e) := by
    rw [mergeBlocks_findByKey ext loc i hext hloc, he, hb]
  constructor
  · intro t het hpos
    rw [hc]
    have hlt : ¬ blockTime b ≥ blockTime e := by
      simp only [blockTime, hbl, het, Option.getD_some, Option.getD_none]
      omega
    rw [if_neg hlt]
  · intro hen
    rw [hc]
    have hge : blockTime b ≥ blockTime e := by
      simp [blockTime, hbl, hen]
    rw [if_pos hge]

def c10Ext : Block :=
  { id := 7, name := "stamped", startTime := .date 0, endTime := .date 60000,
    lastModified := some 5 }

def c10Loc : Block :=
  { id := 7, name := "unstamped", startTime := .date 0, endTime := .date 60000,
    lastModified := none }

/-- Witness for C10: the unstamped local block loses to an external block
with a positive parsed `lastModified`. -/
theorem mergeBlocks_missing_lastModified_witness :
    c10Loc.lastModified = none ∧ c10Ext.lastModified = some 5 ∧ (0 : Int) < 5 ∧
    findByKey Block.id (mergeBlocks [c10Ext] [c10Loc]) 7 = some c10Ext := by
  refine ⟨rfl, rfl, by decide, ?_⟩
  exact (mergeBlocks_missing_lastModified [c10Ext] [c10Loc] 7 c10Ext c10Loc
    (by decide) (by decide) (by decide) (by decide) rfl).1 5 rfl (by decide)

/-! ### Claim C2: the debounced writer

`setBlocks` (`src/src/utils/storageService.ts` lines 443–448) replaces
`this.data.blocks` synchronously and calls `persist`; `persist`
(lines 457–464) clears any previously scheduled timeout and schedules the
physical write 300 ms later. The model below runs a timeline of
`setBlocks` calls against an engine that stays in file mode (the branch
`persist` takes when the mode is not `needs-permission`); the single
live timer is the fire time of the last scheduled write, and firing it
performs the physical write with the in-memory document of that moment. -/

/-- Debounce quiet period of `persist`: `window.setTimeout(..., 300)`. -/
def debounceMs : Nat := 300

/-- State of the debounced writer: the in-memory blocks list, the fire
time of the single pending timeout, and the log of physical writes
(fire time and written content). -/
structure DebounceState where
  blocks : List Block
  pending : Option Nat
  writes : List (Nat × List Block)
deriving DecidableEq, Repr

/-- A due timer fires before the next call is processed: the scheduled
write runs with the in-memory document current at that point. -/
def fireIfDue (st : DebounceState) (now : Nat) : DebounceState :=
  match st.pending with
  | some tf =>
    if tf ≤ now then
      { st with pending := none, writes := st.writes ++ [(tf, st.blocks)] }
    else st
  | none => st

/-- `setBlocks` at time `t`: the in-memory list is replaced synchronously,
and `persist` cancels any previously scheduled write and schedules a new
one at `t + 300`. -/
def setBlocksAt (st : DebounceState) (t : Nat) (l : List Block) : DebounceState :=
  { st with blocks := l, pending := some (t + debounceMs) }

/-- Run a timeline of `setBlocks` calls at increasing times. -/
def runCalls (st : DebounceState) : List (Nat × List Block) → DebounceState
  | [] => st
  | (t, l) :: rest => runCalls (setBlocksAt (fireIfDue st t) t l) rest

/-- After the last call, the quiet period elapses and the still-pending
timer fires. -/
def flushPending (st : DebounceState) : DebounceState :=
  match st.pending with
  | some tf => { st with pending := none, writes := st.writes ++ [(tf, st.blocks)] }
  | none => st

/-- Full run: all calls, then the quiet period. -/
def runDebounce (init : List Block) (calls : List (Nat × List Block)) : DebounceState :=
  flushPending (runCalls ⟨init, none, []⟩ calls)

/-- The last call of a nonempty timeline. -/
def lastCall (first : Nat × List Block) (rest : List (Nat × List Block)) :
    Nat × List Block :=
  rest.foldl (fun _ q => q) first

theorem runCalls_within_window (rest : List (Nat × List Block)) :
    ∀ (p : Nat × List Block) (w : List (Nat × List Block)),
    List.Chain' (fun p q => q.1 < p.1 + debounceMs) (p :: rest) →
    runCalls ⟨p.2, some (p.1 + debounceMs), w⟩ rest =
      ⟨(lastCall p rest).2, some ((lastCall p rest).1 + debounceMs), w⟩ := by
  induction rest with
  | nil => intro p w _; rfl
  | cons q rest' ih =>
    intro p w hchain
    obtain ⟨hpq, hchain'⟩ := List.chain'_cons.mp hchain
    have hfire : fireIfDue ⟨p.2, some (p.1 + debounceMs), w⟩ q.1 =
        ⟨p.2, some (p.1 + debounceMs), w⟩ := by
      simp only [fireIfDue]
      rw [if_neg (by omega)]
    have hstep : runCalls ⟨p.2, some (p.1 + debounceMs), w⟩ (q :: rest') =
        runCalls ⟨q.2, some (q.1 + debounceMs), w⟩ rest' := by
      show runCalls (setBlocksAt (fireIfDue ⟨p.2, some (p.1 + debounceMs), w⟩ q.1) q.1 q.2)
        rest' = _
      rw [hfire]; rfl
    rw [hstep, ih q w hchain']
    rfl

/-- C2: within one debounce window, every `setBlocks` call replaces the
in-memory blocks synchronously (leaving the write log untouched) and
reschedules the single pending write to its own time + 300 ms, and the
whole timeline produces exactly one physical write, 300 ms after the
last call, whose content is the result of applying all calls in order. -/
theorem setBlocks_debounce_coalescing (init : List Block)
    (first : Nat × List Block) (rest : List (Nat × List Block))
    (hwin : List.Chain' (fun p q => q.1 < p.1 + debounceMs) (first :: rest)) :
    (∀ st t l, (setBlocksAt st t l).blocks = l ∧
      (setBlocksAt st t l).pending = some (t + debounceMs) ∧
      (setBlocksAt st t l).writes = st.writes) ∧
    (runDebounce init (first :: rest)).writes =
      [((lastCall first rest).1 + debounceMs, (lastCall first rest).2)] ∧
    (lastCall first rest).2 = (first :: rest).foldl (fun _cur q => q.2) init := by
  refine ⟨fun st t l => ⟨rfl, rfl, rfl⟩, ?_, ?_⟩
  · have hfirst : runCalls ⟨init, none, []⟩ (first :: rest) =
        runCalls ⟨first.2, some (first.1 + debounceMs), []⟩ rest := rfl
    rw [runDebounce, hfirst, runCalls_within_window rest first [] hwin]
    rfl
  · show (lastCall first rest).2 = (rest.foldl (fun _cur q => q.2) first.2)
    clear hwin
    induction rest generalizing first with
    | nil => rfl
    | cons q rest' ih => exact ih q

/-- Witness for C2: three rapid `setBlocks` calls inside one window yield
one write at the last call's time + 300 with the last list. -/
theorem setBlocks_debounce_coalescing_witness :
    List.Chain' (fun p q => q.1 < p.1 + debounceMs)
      [((0 : Nat), [c1Ext]), (100, []), (250, [c1Loc])] ∧
    (runDebounce [] [(0, [c1Ext]), (100, []), (250, [c1Loc])]).writes =
      [(550, [c1Loc])] := by
  constructor
  · simp [List.chain'_cons, debounceMs]
  · have h := (setBlocks_debounce_coalescing [] (0, [c1Ext])
      [(100, []), (250, [c1Loc])] (by simp [List.chain'_cons, debounceMs])).2.1
    simpa [lastCall] using h

/-! ### Claim C4: the wire format and the reviver

`writeToFile` serializes with `JSON.stringify(this.data, null, 2)`, which
turns every `Date` into its ISO-8601 string (`Date.prototype.toJSON`) and
omits absent optional fields; reads go through `JSON.parse(text, reviver)`
where the reviver (`src/src/utils/storageService.ts` lines 60-65) converts
a value back to a `Date` only under the keys `startTime` and `endTime`.
The ISO formatter and parser below implement the proleptic Gregorian
calendar for years 0-9999, the canonical `toISOString` range used here. -/

/-- Left-pad a decimal number with zeros to the given width. -/
def padNum (w n : Nat) : String :=
  let s := toString n
  String.mk (List.replicate (w - s.length) '0') ++ s

/-- Civil date (year, month, day) from days since 1970-01-01 in the
proleptic Gregorian calendar. -/
def civilFromDays (z0 : Int) : Int × Nat × Nat :=
  let z := z0 + 719468
  let era := z.fdiv 146097
  let doe := (z - era * 146097).toNat
  let yoe := (doe - doe / 1460 + doe / 36524 - doe / 146096) / 365
  let doy := doe - (365 * yoe + yoe / 4 - yoe / 100)
  let mp := (5 * doy + 2) / 153
  let d := doy - (153 * mp + 2) / 5 + 1
  let m := if mp < 10 then mp + 3 else mp - 9
  (era * 400 + (yoe : Int) + (if m ≤ 2 then 1 else 0), m, d)

/-- Days since 1970-01-01 of a civil date, inverse of `civilFromDays`. -/
def daysFromCivil (y0 : Int) (m d : Nat) : Int :=
  let y := y0 - (if m ≤ 2 then 1 else 0)
  let era := y.fdiv 400
  let yoe := (y - era * 400).toNat
  let mp := if m > 2 then m - 3 else m + 9
  let doy := (153 * mp + 2) / 5 + d - 1
  let doe := yoe * 365 + yoe / 4 - yoe / 100 + doy
  era * 146097 + (doe : Int) - 719468

/-- `Date.prototype.toISOString`: `YYYY-MM-DDTHH:mm:ss.sssZ`. -/
def toISO (t : Int) : String :=
  let days := t.fdiv 86400000
  let ms := (t - days * 86400000).toNat
  let c := civilFromDays days
  padNum 4 c.1.toNat ++ "-" ++ padNum 2 c.2.1 ++ "-" ++ padNum 2 c.2.2 ++ "T" ++
    padNum 2 (ms / 3600000) ++ ":" ++ padNum 2 (ms / 60000 % 60) ++ ":" ++
    padNum 2 (ms / 1000 % 60) ++ "." ++ padNum 3 (ms % 1000) ++ "Z"

/-- Numeric value of a run of ASCII digits. -/
def digitsVal (cs : List Char) : Nat :=
  cs.foldl (fun a c => a * 10 + (c.toNat - 48)) 0

/-- `new Date(s).getTime()` on the canonical `YYYY-MM-DDTHH:mm:ss.sssZ`
strings that `toISO` emits (fixed-position fields). -/
def parseISO (s : String) : Int :=
  let cs := s.toList
  let seg := fun (off len : Nat) => digitsVal ((cs.drop off).take len)
  daysFromCivil (Int.ofNat (seg 0 4)) (seg 5 2) (seg 8 2) * 86400000 +
    Int.ofNat (seg 11 2 * 3600000 + seg 14 2 * 60000 + seg 17 2 * 1000 + seg 20 3)

/-- A `Block` as it appears in the JSON file: every `Date` has become its
ISO string and absent optional fields are omitted. -/
structure WireBlock where
  id : Int
  name : String
  startTime : String
  endTime : String
  notes : Option String := none
  status : Option String := none
  failedAt : Option String := none
  failureReason : Option String := none
  lastModified : Option String := none
deriving DecidableEq, Repr

/-- The serialized document (`StandardBlock` carries no dates and passes
through unchanged). -/
structure WireData where
  version : String
  lastModified : String
  blocks : List WireBlock
  standardBlocks : List StandardBlock
deriving DecidableEq, Repr

/-- `JSON.stringify` of one runtime field value. -/
def encodeVal : JsVal → String
  | .str s => s
  | .date t => toISO t

def encodeBlock (b : Block) : WireBlock :=
  { id := b.id, name := b.name,
    startTime := encodeVal b.startTime, endTime := encodeVal b.endTime,
    notes := b.notes, status := b.status,
    failedAt := b.failedAt.map encodeVal,
    failureReason := b.failureReason,
    lastModified := b.lastModified.map toISO }

def encodeData (d : StorageData) : WireData :=
  { version := d.version, lastModified := d.lastModified,
    blocks := d.blocks.map encodeBlock, standardBlocks := d.standardBlocks }

/-- `JSON.parse` with the reviver of `storageService.ts` lines 60-65: only
the keys `startTime` and `endTime` are turned back into `Date`s; in
particular `failedAt` keeps the raw ISO string. (`lastModified` is a
string in memory as well; the model represents it by its parsed time.) -/
def decodeBlock (w : WireBlock) : Block :=
  { id := w.id, name := w.name,
    startTime := .date (parseISO w.startTime),
    endTime := .date (parseISO w.endTime),
    notes := w.notes, status := w.status,
    failedAt := w.failedAt.map JsVal.str,
    failureReason := w.failureReason,
    lastModified := w.lastModified.map parseISO }

def decodeData (w : WireData) : StorageData :=
  { version := w.version, lastModified := w.lastModified,
    blocks := w.blocks.map decodeBlock, standardBlocks := w.standardBlocks }

def c4Block : Block :=
  { id := 1, name := "Focus", startTime := .date 3600000, endTime := .date 7200000,
    notes := some "note", status := some "failed",
    failedAt := some (.date 5400000), failureReason := some "reason",
    lastModified := some 5400000 }

def c4Doc : StorageData :=
  { version := "1.0", lastModified := "1970-01-01T01:30:00.000Z",
    blocks := [c4Block], standardBlocks := [⟨2, "Email", some true⟩] }

/-- C4 (code bug): the reviver allowlist is only `startTime` and
`endTime`, not `failedAt`. Encoding and decoding a document whose block
failed at `1970-01-01T01:30:00.000Z` restores every field except
`failedAt`, which comes back as the raw ISO string instead of an instant
(although `src/src/types/index.ts` declares `failedAt?: Date`), so the
round-trip is not the identity. -/
theorem decode_encode_misses_failedAt :
    decodeData (encodeData c4Doc) =
      { c4Doc with blocks :=
          [{ c4Block with failedAt := some (.str "1970-01-01T01:30:00.000Z") }] } ∧
    decodeData (encodeData c4Doc) ≠ c4Doc := by
  constructor
  · decide
  · decide

/-! ### The engine: permission gate, schema validation and the read path

The remaining claims concern the stateful engine (`StorageService`).
Its I/O primitives are modelled by environment values describing what
each call would return, with `Except.error` marking a call that throws;
a definition may route such an error only to the behaviour of the
`catch` block that encloses the call in the source, or re-raise it when
no catch encloses it, so "this method never rejects" is the statement
that the embedded method is `.ok` on every environment.
`queryPermission`/`requestPermission` return `Promise<PermissionState>`
and may also reject (`requestPermission` rejects with a `SecurityError`
when invoked without user activation), so their outcomes carry an
explicit rejection alternative as well. -/

inductive Mode where
  | file | localStorage | memory | needsPermission
deriving DecidableEq, Repr

inductive PermState where
  | granted | denied | prompt
deriving DecidableEq, Repr

/-- Permission behaviour of a file handle: the outcome of one
`queryPermission`/`requestPermission` call for each access mode (the
argument is `readWrite`). `none` means the method is absent on the
handle (the `h.queryPermission &&` guard); otherwise the awaited
promise either resolves with a `PermissionState` (`Except.ok`) or
rejects (`Except.error`). -/
structure PermHandle where
  query : Bool → Option (Except Unit PermState)
  request : Bool → Option (Except Unit PermState)

/-- Embedding of `verifyPermission` (`src/src/utils/storageService.ts`
lines 222-237): first query, then request, granted when either answers
`granted`; a denial is the boolean `false`, not an exception. The
method has no try/catch, so a rejecting permission call propagates
(`Except.error`) instead of producing a verdict. -/
def verifyPermission (h : PermHandle) (readWrite : Bool) : Except Unit Bool :=
  match h.query readWrite with
  | some (Except.error e) => Except.error e
  | some (Except.ok PermState.granted) => Except.ok true
  | _ =>
    match h.request readWrite with
    | some (Except.error e) => Except.error e
    | some (Except.ok PermState.granted) => Except.ok true
    | _ => Except.ok false

/-- Dynamic value returned by `JSON.parse`. -/
inductive Json where
  | null
  | bool (b : Bool)
  | num (n : Int)
  | str (s : String)
  | arr (elems : List Json)
  | obj (fields : List (String × Json))

/-- JavaScript truthiness of a parse result (the `data &&` guard). -/
def jsTruthy : Json → Bool
  | .null => false
  | .bool b => b
  | .num n => n != 0
  | .str s => s != ""
  | .arr _ => true
  | .obj _ => true

/-- Property access `data.key` on a parse result: only objects carry own
properties here; everything else yields `undefined` (`none`). -/
def Json.getProp : Json → String → Option Json
  | .obj fields, k => (fields.find? (fun p => p.1 == k)).map Prod.snd
  | _, _ => none

/-- Embedding of `isValidStorageData` (`src/src/utils/storageService.ts`
lines 67-72): the value is truthy, `version` is a string and both
collections are arrays. -/
def isValidStorageData (j : Json) : Bool :=
  jsTruthy j &&
    (match j.getProp "version" with | some (.str _) => true | _ => false) &&
    (match j.getProp "blocks" with | some (.arr _) => true | _ => false) &&
    (match j.getProp "standardBlocks" with | some (.arr _) => true | _ => false)

/-- Parse outcome of the file text during a read: trim-blank text (no
parse is attempted), text on which `JSON.parse` throws, or a parsed
value. -/
inductive FileContent where
  | blank
  | unparseable
  | json (j : Json)

/-- Outcome of the `handle.getFile()` / `file.text()` pair of a read:
either call may throw; when `text()` throws the modification marker has
already been recorded. -/
inductive ReadOutcome where
  | getFileError
  | textError (marker : Int)
  | ok (marker : Int) (content : FileContent)

/-- Engine state for the read/init model. `data` is the dynamic
in-memory document: the source assigns the raw parse result to
`this.data`. `registry` is the handle stored in IndexedDB. -/
structure EngineState where
  handle : Option String
  registry : Option String
  mode : Mode
  useLocalStorage : Bool
  data : Json
  lastModified : Int
  polling : Bool

/-- The empty default document the engine is constructed with
(`src/src/utils/storageService.ts` lines 88-93), at the parse level. -/
def defaultData (nowIso : String) : Json :=
  .obj [("version", .str "1.0"), ("lastModified", .str nowIso),
        ("blocks", .arr []), ("standardBlocks", .arr [])]

/-- Embedding of `tryReadFromFile` (`src/src/utils/storageService.ts`
lines 244-280). A missing handle or a permission denial reports failure
without touching anything; the `verifyPermission` call (line 248) sits
outside the try block, so a rejecting permission call propagates out of
the method; an I/O throw of `getFile`/`text` lands in the catch block
(clear the registered handle, report failure); blank text, a parse
failure or an invalid schema are swallowed and the read still reports
success with the in-memory document untouched; only a parsed value
passing `isValidStorageData` is assigned to `this.data`. -/
def tryReadFromFileE (st : EngineState) (perm : PermHandle) (outcome : ReadOutcome) :
    Except Unit (EngineState × Bool) :=
  match st.handle with
  | none => .ok (st, false)
  | some _ =>
    match verifyPermission perm false with
    | Except.error e => Except.error e
    | Except.ok false => .ok (st, false)
    | Except.ok true =>
      match outcome with
      | .getFileError => .ok ({ st with handle := none, registry := none }, false)
      | .textError marker =>
        .ok ({ st with lastModified := marker, handle := none, registry := none }, false)
      | .ok marker content =>
        let st1 := { st with lastModified := marker }
        match content with
        | .blank => .ok (st1, true)
        | .unparseable => .ok (st1, true)
        | .json j =>
          if isValidStorageData j then .ok ({ st1 with data := j }, true)
          else .ok (st1, true)

/-! ### The write path -/

/-- What `file.text()` yields during the pre-write freshness check:
trim-blank text, text that does not produce a usable document (the inner
catch swallows both a `JSON.parse` throw and a merge step throwing on a
malformed document), or a parsed document. -/
inductive DiskContent where
  | blank
  | unusable
  | doc (d : StorageData)

/-- Environment of one `writeToFile` run, in source order: permission
behaviour, the pre-write `getFile` (yielding the current modification
marker), the `text()` read used when the marker is stale, the
`createWritable`/`write`/`close` step, the post-write `getFile`
(yielding the new marker), and `new Date().toISOString()`. -/
structure WriteEnv where
  perm : PermHandle
  getFileBefore : Except Unit Int
  readText : Except Unit DiskContent
  writeStep : Except Unit Unit
  getFileAfter : Except Unit Int
  nowIso : String

/-- Engine state for the write model; here the in-memory document is a
typed `StorageData`, the normal-operation shape of `this.data`. -/
structure WState where
  handle : Option String
  registry : Option String
  mode : Mode
  data : StorageData
  lastModified : Int
  polling : Bool
deriving DecidableEq, Repr

/-- Messages posted on the `storage-service` broadcast channel. -/
inductive BroadcastMsg where
  | dataUpdated (timestamp : String)
  | fileChanged
deriving DecidableEq, Repr

/-- Result of a `writeToFile` run: final state, the serialized document
committed by `writable.write` when the write succeeded, broadcasts
posted, and the number of file-picker prompts issued. (`setSaving`
toggles around the body and nets to `false` on every path; it is not
tracked.) -/
structure WriteResult where
  st : WState
  written : Option StorageData
  broadcasts : List BroadcastMsg
  prompts : Nat
deriving DecidableEq, Repr

/-- The catch block of `writeToFile` (`src/src/utils/storageService.ts`
lines 354-364): clear the stored handle, drop the in-memory handle, stop
polling, fall back to memory mode; no broadcast, no prompt. -/
def writeCatch (st : WState) : WriteResult :=
  ⟨{ st with registry := none, handle := none, polling := false, mode := .memory },
   none, [], 0⟩

/-- Embedding of `writeToFile` (`src/src/utils/storageService.ts`
lines 320-365). Without a handle it returns silently; a permission
denial moves the mode to `needs-permission` and returns, while a
rejecting permission call propagates (the `verifyPermission` call at
line 324 sits outside the try block). Otherwise the current marker is
re-read; if it differs from the last-known one the on-disk document is
read and merged into `this.data` (a blank or unusable file is ignored);
then `this.data.lastModified` is set to now, the full document is
written, the new marker is recorded, and a `dataUpdated` broadcast
carries the document's new `lastModified`. Every I/O throw inside the
`try` lands in `writeCatch`, reflecting the mutations already performed
at that point. -/
def writeToFileE (st : WState) (env : WriteEnv) : Except Unit WriteResult :=
  match st.handle with
  | none => .ok ⟨st, none, [], 0⟩
  | some _ =>
    match verifyPermission env.perm true with
    | Except.error e => Except.error e
    | Except.ok false => .ok ⟨{ st with mode := .needsPermission }, none, [], 0⟩
    | Except.ok true =>
      match env.getFileBefore with
      | .error _ => .ok (writeCatch st)
      | .ok marker =>
        let merged : Except Unit StorageData :=
          if marker ≠ st.lastModified then
            match env.readText with
            | .error _ => .error ()
            | .ok .blank => .ok st.data
            | .ok .unusable => .ok st.data
            | .ok (.doc d) =>
              .ok { st.data with
                    blocks := mergeBlocks d.blocks st.data.blocks,
                    standardBlocks :=
                      mergeStandardBlocks d.standardBlocks st.data.standardBlocks }
          else .ok st.data
        match merged with
        | .error _ => .ok (writeCatch st)
        | .ok d1 =>
          let d2 := { d1 with lastModified := env.nowIso }
          let st2 := { st with data := d2 }
          match env.writeStep with
          | .error _ => .ok (writeCatch st2)
          | .ok _ =>
            match env.getFileAfter with
            | .error _ => .ok (writeCatch st2)
            | .ok m2 =>
              .ok ⟨{ st2 with lastModified := m2 },
                   some d2, [.dataUpdated env.nowIso], 0⟩

/-! ### Initialization -/

/-- Content of `localStorage.getItem` as seen by `readFromLocalStorage`:
absent (or empty, which is falsy), unparseable, or a parsed value. -/
inductive LSContent where
  | absent
  | unparseable
  | json (j : Json)

/-- Embedding of `readFromLocalStorage` (`src/src/utils/storageService.ts`
lines 484-500): only a parsed value passing `isValidStorageData` is
assigned; it performs no write. -/
def readFromLocalStorage (st : EngineState) (c : LSContent) : EngineState :=
  match c with
  | .absent => st
  | .unparseable => st
  | .json j => if isValidStorageData j then { st with data := j } else st

/-- Environment of one `performInit` run: whether `showSaveFilePicker`
exists, the permission behaviour and read outcome used if a registered
handle is found, and the localStorage content used on the
no-file-capability path. -/
structure InitEnv where
  hasFilePicker : Bool
  perm : PermHandle
  readOutcome : ReadOutcome
  localContent : LSContent

/-- Embedding of `performInit` (`src/src/utils/storageService.ts`
lines 144-174), returning the resulting state together with the number
of write attempts made against any backing store. Without the file
picker capability the engine goes to `localStorage` mode and reads (not
writes) the key-value store; with the capability it loads the registered
handle from the registry; with no registered handle it stays in `memory`
mode; with one, a successful read enters `file` mode and starts polling,
and a failed read enters `needs-permission` when the handle survived,
otherwise keeps the initial `memory` mode. No path writes. -/
def performInit (st0 : EngineState) (env : InitEnv) : Except Unit (EngineState × Nat) :=
  if env.hasFilePicker = false then
    .ok (readFromLocalStorage
      { st0 with useLocalStorage := true, mode := .localStorage } env.localContent, 0)
  else
    let st1 := { st0 with handle := st0.registry }
    match st1.handle with
    | none => .ok ({ st1 with mode := .memory }, 0)
    | some _ =>
      match tryReadFromFileE st1 env.perm env.readOutcome with
      | .error e => .error e
      | .ok (st2, success) =>
        if success then .ok ({ st2 with mode := .file, polling := true }, 0)
        else
          match st2.handle with
          | some _ => .ok ({ st2 with mode := .needsPermission }, 0)
          | none => .ok (st2, 0)

/-! ### Claim C3: the file-mode write contract -/

/-- C3: on the success path of a file-mode write, the re-read marker
decides merging: when it differs from the last-known marker and the
on-disk text parses into a document, the written document carries the
Merge Resolver's output on both collections; after the write the new
marker is recorded and a `dataUpdated` broadcast carries the document's
new `lastModified` (which is also the written document's value). -/
theorem writeToFile_contract (st : WState) (env : WriteEnv)
    (h : String) (hh : st.handle = some h)
    (hperm : verifyPermission env.perm true = Except.ok true)
    (marker : Int) (hget : env.getFileBefore = Except.ok marker)
    (rc : DiskContent) (hrt : env.readText = Except.ok rc)
    (hw : env.writeStep = Except.ok ())
    (m2 : Int) (hg2 : env.getFileAfter = Except.ok m2) :
    ∃ r, writeToFileE st env = Except.ok r ∧
      r.st.lastModified = m2 ∧
      r.broadcasts = [BroadcastMsg.dataUpdated env.nowIso] ∧
      (∀ w, r.written = some w → w.lastModified = env.nowIso) ∧
      (∀ d, marker ≠ st.lastModified → rc = DiskContent.doc d →
        r.written = some
          { version := st.data.version, lastModified := env.nowIso,
            blocks := mergeBlocks d.blocks st.data.blocks,
            standardBlocks :=
              mergeStandardBlocks d.standardBlocks st.data.standardBlocks }) := by
  simp only [writeToFileE, hh, hperm, hget, hrt, hw, hg2, if_true]
  by_cases hm : marker = st.lastModified
  · rw [if_neg (by simpa using hm)]
    refine ⟨_, rfl, rfl, rfl, fun w hw2 => ?_, fun d hne _ => absurd hm hne⟩
    rw [(Option.some.inj hw2).symm]
  · rw [if_pos hm]
    cases rc with
    | blank =>
      refine ⟨_, rfl, rfl, rfl, fun w hw2 => ?_, fun d _ hd => by cases hd⟩
      rw [(Option.some.inj hw2).symm]
    | unusable =>
      refine ⟨_, rfl, rfl, rfl, fun w hw2 => ?_, fun d _ hd => by cases hd⟩
      rw [(Option.some.inj hw2).symm]
    | doc d0 =>
      refine ⟨_, rfl, rfl, rfl, fun w hw2 => ?_, fun d _ hd => ?_⟩
      · rw [(Option.some.inj hw2).symm]
      · cases hd; rfl

def c3DiskDoc : StorageData :=
  { version := "1.0", lastModified := "1970-01-01T00:50:00.000Z",
    blocks := [c1Loc], standardBlocks := [⟨9, "tmpl", none⟩] }

def c3St : WState :=
  { handle := some "blocker-data.json", registry := some "blocker-data.json",
    mode := .file,
    data := { version := "1.0", lastModified := "1970-01-01T00:40:00.000Z",
              blocks := [c1Ext], standardBlocks := [] },
    lastModified := 3, polling := true }

def c3Env : WriteEnv :=
  { perm := ⟨fun _ => some (Except.ok PermState.granted), fun _ => none⟩,
    getFileBefore := Except.ok 5, readText := Except.ok (DiskContent.doc c3DiskDoc),
    writeStep := Except.ok (), getFileAfter := Except.ok 99,
    nowIso := "1970-01-01T01:00:00.000Z" }

def c3Expected : WriteResult :=
  ⟨{ c3St with
      data := { version := "1.0", lastModified := "1970-01-01T01:00:00.000Z",
                blocks := mergeBlocks c3DiskDoc.blocks c3St.data.blocks,
                standardBlocks :=
                  mergeStandardBlocks c3DiskDoc.standardBlocks c3St.data.standardBlocks },
      lastModified := 99 },
   some { version := "1.0", lastModified := "1970-01-01T01:00:00.000Z",
          blocks := mergeBlocks c3DiskDoc.blocks c3St.data.blocks,
          standardBlocks :=
            mergeStandardBlocks c3DiskDoc.standardBlocks c3St.data.standardBlocks },
   [BroadcastMsg.dataUpdated "1970-01-01T01:00:00.000Z"], 0⟩

/-- Witness for C3 at a concrete stale-marker write: the theorem applies
and the committed document is the merge of the disk and local
collections, stamped with the new `lastModified`. -/
theorem writeToFile_contract_witness :
    writeToFileE c3St c3Env = Except.ok c3Expected ∧
    c3Expected.st.lastModified = 99 ∧
    c3Expected.broadcasts = [BroadcastMsg.dataUpdated "1970-01-01T01:00:00.000Z"] := by
  have hcomp : writeToFileE c3St c3Env = Except.ok c3Expected := by rfl
  obtain ⟨r, hr, hm, hb, hwl, hwr⟩ :=
    writeToFile_contract c3St c3Env "blocker-data.json" rfl rfl 5 rfl
      (DiskContent.doc c3DiskDoc) rfl rfl 99 rfl
  have hre : r = c3Expected := Except.ok.inj (hr.symm.trans hcomp)
  exact ⟨hcomp, hre ▸ hm, hre ▸ hb⟩

/-! ### Claim C5: I/O failure recovery -/

/-- C5 (amended): an I/O exception during a file write clears the
registered handle, drops the in-memory handle, stops polling and
transitions the mode to `Memory`, issuing zero automatic re-prompts; an
I/O exception during a file read clears the registered handle and
reports failure (the caller then chooses the mode). Recovery is only
through the manual `changeFile`/restore action, so there is no unbounded
retry. -/
theorem io_error_clears_handle_no_reprompt
    (st : WState) (env : WriteEnv) (h : String) (hh : st.handle = some h)
    (hperm : verifyPermission env.perm true = Except.ok true)
    (hio : env.getFileBefore = Except.error ())
    (est : EngineState) (perm2 : PermHandle) (h2 : String) (hh2 : est.handle = some h2)
    (hperm2 : verifyPermission perm2 false = Except.ok true) :
    writeToFileE st env = Except.ok (writeCatch st) ∧
    (writeCatch st).st.handle = none ∧ (writeCatch st).st.registry = none ∧
    (writeCatch st).st.mode = Mode.memory ∧ (writeCatch st).st.polling = false ∧
    (writeCatch st).prompts = 0 ∧
    tryReadFromFileE est perm2 ReadOutcome.getFileError =
      Except.ok ({ est with handle := none, registry := none }, false) := by
  refine ⟨?_, rfl, rfl, rfl, rfl, rfl, ?_⟩
  · simp only [writeToFileE, hh, hperm, hio, if_true]
  · simp only [tryReadFromFileE, hh2, hperm2, if_true]

def c5St : WState :=
  { handle := some "blocker-data.json", registry := some "blocker-data.json",
    mode := .file, data := ⟨"1.0", "1970-01-01T00:40:00.000Z", [], []⟩,
    lastModified := 3, polling := true }

def c5Env : WriteEnv :=
  { perm := ⟨fun _ => some (Except.ok PermState.granted), fun _ => none⟩,
    getFileBefore := Except.error (), readText := Except.ok DiskContent.blank,
    writeStep := Except.ok (), getFileAfter := Except.ok 0,
    nowIso := "1970-01-01T01:00:00.000Z" }

/-- C5 counterexample: at a concrete I/O failure during a write the
engine clears the handle and reaches memory mode, but issues zero
automatic re-prompts rather than exactly one. -/
theorem writeToFile_io_error_zero_prompts :
    writeToFileE c5St c5Env = Except.ok (writeCatch c5St) ∧
    (writeCatch c5St).prompts = 0 ∧ ¬ (writeCatch c5St).prompts = 1 ∧
    (writeCatch c5St).st.mode = Mode.memory ∧ (writeCatch c5St).st.handle = none := by
  refine ⟨by rfl, rfl, by decide, rfl, rfl⟩

/-- Witness for C5 (amended) at the same concrete inputs, with a read
state alongside. -/
theorem io_error_clears_handle_no_reprompt_witness :
    writeToFileE c5St c5Env = Except.ok (writeCatch c5St) ∧
    tryReadFromFileE
        ⟨some "f", some "f", Mode.file, false, defaultData "T0", 3, true⟩
        ⟨fun _ => some (Except.ok PermState.granted), fun _ => none⟩
        ReadOutcome.getFileError =
      Except.ok (⟨none, none, Mode.file, false, defaultData "T0", 3, true⟩, false) := by
  obtain ⟨hw, _, _, _, _, _, hr⟩ :=
    io_error_clears_handle_no_reprompt c5St c5Env "blocker-data.json" rfl rfl rfl
      ⟨some "f", some "f", Mode.file, false, defaultData "T0", 3, true⟩
      ⟨fun _ => some (Except.ok PermState.granted), fun _ => none⟩ "f" rfl rfl
  exact ⟨hw, hr⟩

/-! ### Claim C6: which failures are caught at the engine boundary -/

/-- Whether an embedded method completed without an uncaught exception. -/
def exceptIsOk {ε α : Type} : Except ε α → Bool
  | .ok _ => true
  | .error _ => false

theorem exceptIsOk_iff {ε α : Type} (e : Except ε α) :
    exceptIsOk e = true ↔ ∃ r, e = Except.ok r := by
  cases e <;> simp [exceptIsOk]

/-- The handle's permission calls resolve instead of rejecting, for
both methods and both access modes. -/
def PermResolves (h : PermHandle) : Prop :=
  (∀ b, h.query b ≠ some (Except.error ())) ∧
  (∀ b, h.request b ≠ some (Except.error ()))

theorem verifyPermission_isOk (h : PermHandle) (readWrite : Bool)
    (hres : PermResolves h) :
    ∃ v, verifyPermission h readWrite = Except.ok v := by
  unfold verifyPermission
  split
  · rename_i e heq
    exact absurd heq (by cases e; exact hres.1 readWrite)
  · exact ⟨_, rfl⟩
  · split
    · rename_i e heq
      exact absurd heq (by cases e; exact hres.2 readWrite)
    · exact ⟨_, rfl⟩
    · exact ⟨_, rfl⟩

theorem verifyPermission_verdict (h : PermHandle) (readWrite : Bool)
    (hres : PermResolves h) :
    (verifyPermission h readWrite = Except.ok true ∨
      verifyPermission h readWrite = Except.ok false) ∧
    (verifyPermission h readWrite = Except.ok true ↔
      (h.query readWrite = some (Except.ok PermState.granted) ∨
        h.request readWrite = some (Except.ok PermState.granted))) := by
  obtain ⟨hqe, hre⟩ := hres
  rcases hq : h.query readWrite with _ | q
  · rcases hr : h.request readWrite with _ | r
    · simp [verifyPermission, hq, hr]
    · rcases r with e | s
      · cases e
        exact absurd hr (hre readWrite)
      · cases s <;> simp [verifyPermission, hq, hr]
  · rcases q with e | s
    · cases e
      exact absurd hq (hqe readWrite)
    · cases s with
      | granted => simp [verifyPermission, hq]
      | denied =>
        rcases hr : h.request readWrite with _ | r
        · simp [verifyPermission, hq, hr]
        · rcases r with e | s2
          · cases e
            exact absurd hr (hre readWrite)
          · cases s2 <;> simp [verifyPermission, hq, hr]
      | prompt =>
        rcases hr : h.request readWrite with _ | r
        · simp [verifyPermission, hq, hr]
        · rcases r with e | s2
          · cases e
            exact absurd hr (hre readWrite)
          · cases s2 <;> simp [verifyPermission, hq, hr]

theorem tryReadFromFileE_isOk (st : EngineState) (perm : PermHandle)
    (outcome : ReadOutcome) (hres : PermResolves perm) :
    exceptIsOk (tryReadFromFileE st perm outcome) = true := by
  unfold tryReadFromFileE
  split
  · rfl
  · obtain ⟨v, hv⟩ := verifyPermission_isOk perm false hres
    rw [hv]
    cases v
    · rfl
    · dsimp only
      split
      · rfl
      · rfl
      · split
        · rfl
        · rfl
        · split <;> rfl

theorem writeToFileE_isOk (st : WState) (env : WriteEnv)
    (hres : PermResolves env.perm) :
    exceptIsOk (writeToFileE st env) = true := by
  unfold writeToFileE
  split
  · rfl
  · obtain ⟨v, hv⟩ := verifyPermission_isOk env.perm true hres
    rw [hv]
    cases v
    · rfl
    · dsimp only
      repeat' split
      all_goals rfl

theorem performInit_isOk (st0 : EngineState) (env : InitEnv)
    (hres : PermResolves env.perm) :
    exceptIsOk (performInit st0 env) = true := by
  unfold performInit
  dsimp only
  split
  · rfl
  · split
    · rfl
    · split
      · rename_i heq
        have hok := tryReadFromFileE_isOk { st0 with handle := st0.registry }
          env.perm env.readOutcome hres
        rw [heq] at hok
        exact Bool.noConfusion hok
      · split
        · rfl
        · split <;> rfl

theorem tryReadFromFileE_error_src (st : EngineState) (perm : PermHandle)
    (outcome : ReadOutcome) (e : Unit)
    (herr : tryReadFromFileE st perm outcome = Except.error e) :
    verifyPermission perm false = Except.error e := by
  unfold tryReadFromFileE at herr
  split at herr
  · exact Except.noConfusion herr
  · split at herr
    · rename_i e2 heq
      exact (Except.error.inj herr) ▸ heq
    · exact Except.noConfusion herr
    · split at herr
      · exact Except.noConfusion herr
      · exact Except.noConfusion herr
      · split at herr
        · exact Except.noConfusion herr
        · exact Except.noConfusion herr
        · split at herr <;> exact Except.noConfusion herr

theorem writeToFileE_error_src (st : WState) (env : WriteEnv) (e : Unit)
    (herr : writeToFileE st env = Except.error e) :
    verifyPermission env.perm true = Except.error e := by
  unfold writeToFileE at herr
  split at herr
  · exact Except.noConfusion herr
  · split at herr
    · rename_i e2 heq
      exact (Except.error.inj herr) ▸ heq
    · exact Except.noConfusion herr
    · dsimp only at herr
      repeat' split at herr
      all_goals exact Except.noConfusion herr

def c6St : EngineState :=
  { handle := some "blocker-data.json", registry := some "blocker-data.json",
    mode := .file, useLocalStorage := false,
    data := defaultData "1970-01-01T00:00:00.000Z", lastModified := 3,
    polling := true }

def c6ThrowPerm : PermHandle :=
  ⟨fun _ => some (Except.ok PermState.prompt), fun _ => some (Except.error ())⟩

/-- C6 counterexample: for a handle in the `prompt` state whose
`requestPermission` rejects - as it does when invoked without user
activation, e.g. during init on reload - `verifyPermission` itself
rejects instead of returning a denial, and the rejection propagates out
of `tryReadFromFile` (and hence out of `init` and the public API): the
permission call sits outside every try block. -/
theorem verifyPermission_throw_escapes :
    verifyPermission c6ThrowPerm false = Except.error () ∧
    tryReadFromFileE c6St c6ThrowPerm (ReadOutcome.ok 0 FileContent.blank) =
      Except.error () ∧
    exceptIsOk
      (tryReadFromFileE c6St c6ThrowPerm (ReadOutcome.ok 0 FileContent.blank)) =
      false := by
  exact ⟨rfl, rfl, rfl⟩

/-- C6 (amended): for every handle whose permission calls resolve,
`verifyPermission` returns a plain boolean verdict - granted exactly
when `queryPermission` or `requestPermission` answers `granted`, a
denial being the value `false` rather than an exception - and, under
the same proviso, the embedded engine methods (`tryReadFromFile`,
`writeToFile`, `performInit`, on which the public async API is built)
complete without an uncaught exception on every I/O environment: every
I/O failure inside the try blocks is caught at the engine boundary.
Conversely, a read or write can reject only through a rejecting
permission call, which `verifyPermission` (no try/catch, invoked
outside every try block) propagates. -/
theorem engine_rejects_only_via_permission :
    (∀ (h : PermHandle) (readWrite : Bool), PermResolves h →
      (verifyPermission h readWrite = Except.ok true ∨
        verifyPermission h readWrite = Except.ok false) ∧
      (verifyPermission h readWrite = Except.ok true ↔
        (h.query readWrite = some (Except.ok PermState.granted) ∨
          h.request readWrite = some (Except.ok PermState.granted)))) ∧
    (∀ (st : EngineState) (perm : PermHandle) (outcome : ReadOutcome),
      PermResolves perm → exceptIsOk (tryReadFromFileE st perm outcome) = true) ∧
    (∀ (st : WState) (env : WriteEnv),
      PermResolves env.perm → exceptIsOk (writeToFileE st env) = true) ∧
    (∀ (st0 : EngineState) (env : InitEnv),
      PermResolves env.perm → exceptIsOk (performInit st0 env) = true) ∧
    (∀ (st : EngineState) (perm : PermHandle) (outcome : ReadOutcome) (e : Unit),
      tryReadFromFileE st perm outcome = Except.error e →
      verifyPermission perm false = Except.error e) ∧
    (∀ (st : WState) (env : WriteEnv) (e : Unit),
      writeToFileE st env = Except.error e →
      verifyPermission env.perm true = Except.error e) :=
  ⟨verifyPermission_verdict, tryReadFromFileE_isOk, writeToFileE_isOk,
    performInit_isOk, tryReadFromFileE_error_src, writeToFileE_error_src⟩

def c6GrantPerm : PermHandle :=
  ⟨fun _ => some (Except.ok PermState.granted), fun _ => none⟩

theorem c6GrantPerm_resolves : PermResolves c6GrantPerm := by
  constructor <;> intro b <;> simp [c6GrantPerm]

/-- Witness for C6 (amended) at a concrete resolving handle: the verdict
is `granted`, and a read against it completes without an uncaught
exception. -/
theorem engine_rejects_only_via_permission_witness :
    PermResolves c6GrantPerm ∧
    verifyPermission c6GrantPerm false = Except.ok true ∧
    exceptIsOk
      (tryReadFromFileE c6St c6GrantPerm ReadOutcome.getFileError) = true := by
  refine ⟨c6GrantPerm_resolves, ?_, ?_⟩
  · exact (engine_rejects_only_via_permission.1 c6GrantPerm false
      c6GrantPerm_resolves).2.mpr (Or.inl rfl)
  · exact engine_rejects_only_via_permission.2.1 c6St c6GrantPerm
      ReadOutcome.getFileError c6GrantPerm_resolves

/-! ### Claim C7: corrupt content never crashes a read -/

/-- C7 (amended): a read whose I/O steps succeed never surfaces the
content as a failure: the parsed value is schema-validated by
`isValidStorageData` (`version` a string, both collections arrays) and
assigned only when valid; blank, unparseable or schema-invalid content
leaves the in-memory document untouched (still the empty default
document whenever nothing was ever loaded); the read reports success
and throws nothing. -/
theorem read_validation_fallback (st : EngineState) (perm : PermHandle)
    (h : String) (hh : st.handle = some h)
    (hperm : verifyPermission perm false = Except.ok true)
    (marker : Int) (content : FileContent) :
    ∃ st2, tryReadFromFileE st perm (ReadOutcome.ok marker content) =
        Except.ok (st2, true) ∧
      st2.lastModified = marker ∧
      (content = FileContent.blank → st2.data = st.data) ∧
      (content = FileContent.unparseable → st2.data = st.data) ∧
      (∀ j, content = FileContent.json j → isValidStorageData j = false →
        st2.data = st.data) ∧
      (∀ j, content = FileContent.json j → isValidStorageData j = true →
        st2.data = j) := by
  simp only [tryReadFromFileE, hh, hperm, if_true]
  cases content with
  | blank =>
    dsimp only
    refine ⟨_, rfl, rfl, fun _ => rfl, ?_, ?_, ?_⟩
    · intro hc; simp at hc
    · intro j hc; simp at hc
    · intro j hc; simp at hc
  | unparseable =>
    dsimp only
    refine ⟨_, rfl, rfl, ?_, fun _ => rfl, ?_, ?_⟩
    · intro hc; simp at hc
    · intro j hc; simp at hc
    · intro j hc; simp at hc
  | json j0 =>
    dsimp only
    by_cases hv : isValidStorageData j0 = true
    · rw [if_pos hv]
      refine ⟨_, rfl, rfl, ?_, ?_, ?_, ?_⟩
      · intro hc; simp at hc
      · intro hc; simp at hc
      · intro j hc hf
        cases hc
        rw [hv] at hf
        exact Bool.noConfusion hf
      · intro j hc _
        cases hc
        rfl
    · rw [if_neg hv]
      refine ⟨_, rfl, rfl, ?_, ?_, ?_, ?_⟩
      · intro hc; simp at hc
      · intro hc; simp at hc
      · intro j hc _
        cases hc
        rfl
      · intro j hc ht
        cases hc
        exact absurd ht hv

def c7Loaded : Json :=
  .obj [("version", .str "1.0"), ("lastModified", .str "1970-01-01T00:40:00.000Z"),
        ("blocks", .arr [.num 1]), ("standardBlocks", .arr [])]

def c7St : EngineState :=
  { handle := some "blocker-data.json", registry := some "blocker-data.json",
    mode := .file, useLocalStorage := false, data := c7Loaded,
    lastModified := 3, polling := true }

def c7Perm : PermHandle :=
  ⟨fun _ => some (Except.ok PermState.granted), fun _ => none⟩

/-- C7 counterexample: a read that hits unparseable content keeps the
previously loaded in-memory document - here one whose `blocks` array is
nonempty - rather than falling back to an empty default document (whose
`blocks` is the empty array); the read still reports success. -/
theorem read_corruption_keeps_loaded_data :
    tryReadFromFileE c7St c7Perm (ReadOutcome.ok 7 FileContent.unparseable) =
      Except.ok ({ c7St with lastModified := 7 }, true) ∧
    ({ c7St with lastModified := 7 } : EngineState).data.getProp "blocks" =
      some (Json.arr [Json.num 1]) ∧
    (defaultData "1970-01-01T00:40:00.000Z").getProp "blocks" =
      some (Json.arr []) ∧
    Json.arr [Json.num 1] ≠ Json.arr [] := by
  refine ⟨rfl, rfl, rfl, fun hc => ?_⟩
  injection hc with hl
  exact List.cons_ne_nil _ _ hl

/-- Witness for C7 (amended): at the concrete loaded state, unparseable
content yields success with the document untouched. -/
theorem read_validation_fallback_witness :
    c7St.handle = some "blocker-data.json" ∧
    verifyPermission c7Perm false = Except.ok true ∧
    tryReadFromFileE c7St c7Perm (ReadOutcome.ok 7 FileContent.unparseable) =
      Except.ok ({ c7St with lastModified := 7 }, true) := by
  obtain ⟨st2, hok, hlm, _, hun, _, _⟩ :=
    read_validation_fallback c7St c7Perm "blocker-data.json" rfl rfl 7
      FileContent.unparseable
  refine ⟨rfl, rfl, ?_⟩
  have hdata := hun rfl
  have hst2 : st2 = { c7St with lastModified := 7 } := by
    have hok2 : tryReadFromFileE c7St c7Perm (ReadOutcome.ok 7 FileContent.unparseable) =
        Except.ok ({ c7St with lastModified := 7 }, true) := rfl
    have := hok.symm.trans hok2
    exact (Prod.mk.injEq _ _ _ _).mp (Except.ok.inj this) |>.1
  rw [hok, hst2]

/-! ### Claim C8: initialization defaults -/

/-- C8 (amended): when initialization runs with the file capability
available and no registered handle, the engine reaches `Memory` mode
with a cleared handle; and no initialization path performs any write
attempt against any backing store. -/
theorem init_no_handle_reaches_memory (st0 : EngineState) (env : InitEnv)
    (hcap : env.hasFilePicker = true) (hreg : st0.registry = none) :
    performInit st0 env =
      Except.ok ({ st0 with handle := none, mode := Mode.memory }, 0) ∧
    (∀ (st : EngineState) (e2 : InitEnv) (s : EngineState) (n : Nat),
      performInit st e2 = Except.ok (s, n) → n = 0) := by
  constructor
  · unfold performInit
    rw [hcap, hreg]
    rfl
  · intro st e2 s n hrun
    unfold performInit at hrun
    dsimp only at hrun
    split at hrun
    · exact (congrArg Prod.snd (Except.ok.inj hrun)).symm
    · split at hrun
      · exact (congrArg Prod.snd (Except.ok.inj hrun)).symm
      · split at hrun
        · exact Except.noConfusion hrun
        · split at hrun
          · exact (congrArg Prod.snd (Except.ok.inj hrun)).symm
          · split at hrun
            · exact (congrArg Prod.snd (Except.ok.inj hrun)).symm
            · exact (congrArg Prod.snd (Except.ok.inj hrun)).symm

def c8St : EngineState :=
  { handle := none, registry := none, mode := .memory, useLocalStorage := false,
    data := defaultData "1970-01-01T00:00:00.000Z", lastModified := 0,
    polling := false }

def c8NoCapEnv : InitEnv :=
  { hasFilePicker := false, perm := ⟨fun _ => none, fun _ => none⟩,
    readOutcome := ReadOutcome.getFileError, localContent := LSContent.absent }

/-- C8 counterexample: with no registered handle and no file capability,
initialization reaches `localStorage` mode, not `Memory` mode (writes
are still zero). -/
theorem init_without_capability_goes_to_localStorage :
    performInit c8St c8NoCapEnv =
      Except.ok
        ({ c8St with useLocalStorage := true, mode := Mode.localStorage }, 0) ∧
    Mode.localStorage ≠ Mode.memory := by
  exact ⟨rfl, by decide⟩

def c8CapEnv : InitEnv :=
  { hasFilePicker := true, perm := ⟨fun _ => none, fun _ => none⟩,
    readOutcome := ReadOutcome.getFileError, localContent := LSContent.absent }

/-- Witness for C8 (amended): with the capability present and an empty
registry, initialization lands in `Memory` mode with zero writes. -/
theorem init_no_handle_reaches_memory_witness :
    c8CapEnv.hasFilePicker = true ∧ c8St.registry = none ∧
    performInit c8St c8CapEnv =
      Except.ok ({ c8St with handle := none, mode := Mode.memory }, 0) := by
  exact ⟨rfl, rfl, (init_no_handle_reaches_memory c8St c8CapEnv rfl rfl).1⟩

end SCBlocker
